import Mathlib

/-!
Verification of the `DataQueue` recording queue (src/Source/DataQueue.cpp):
a single-producer / single-consumer per-channel circular sample buffer with a
per-block timestamp table.  The C++ is embedded shallowly: each member
function becomes a pure function on an explicit `DataQueue` state; C++ `int`
indices and sizes (nonnegative in every reachable call) become `Nat`, except
the `nMax` cap of `startRead`, which is kept as `Int` because its sign is
tested; `int64` timestamps become `Int`; the float sample payloads are only
ever copied, so they are modelled as opaque `Int` values.
-/

/-- External collaborator: the JUCE `AbstractFifo` ring-index allocator that
`DataQueue` owns per channel.  It tracks a valid (ready-to-read) region from
`validStart` up to (but excluding) `validEnd`, wrapping around a ring of
`bufferSize` slots, and hands out up to two contiguous index windows per
request, exactly the contract the spec states for the ring allocator. -/
structure AbstractFifo where
  bufferSize : Nat
  validStart : Nat
  validEnd : Nat
  deriving DecidableEq, Repr, Inhabited

/-- Window pair handed out by the ring allocator (`CircularBufferIndexes` in
DataQueue.h): window 1 is `[index1, index1 + size1)`, window 2 (nonempty only
on wraparound) is `[index2, index2 + size2)`. -/
structure CircularBufferIndexes where
  index1 : Nat
  size1 : Nat
  index2 : Nat
  size2 : Nat
  deriving DecidableEq, Repr, Inhabited

/-- JUCE `AbstractFifo::getNumReady`: number of samples ready to read. -/
def getNumReady (f : AbstractFifo) : Nat :=
  if f.validStart ≤ f.validEnd then f.validEnd - f.validStart
  else f.bufferSize - (f.validStart - f.validEnd)

/-- JUCE `AbstractFifo::getFreeSpace`: `bufferSize - getNumReady() - 1`; the
allocator always keeps one slot unused. -/
def getFreeSpace (f : AbstractFifo) : Nat := f.bufferSize - getNumReady f - 1

/-- JUCE `AbstractFifo::prepareToWrite`: reserve up to `numToWrite` slots,
returning the window pair.  The grant is capped at `freeSpace - 1` where
`freeSpace = bufferSize - numReady`. -/
def prepareToWrite (f : AbstractFifo) (numToWrite : Nat) : CircularBufferIndexes :=
  let freeSpace :=
    if f.validStart ≤ f.validEnd then f.bufferSize - (f.validEnd - f.validStart)
    else f.validStart - f.validEnd
  let n := min numToWrite (freeSpace - 1)
  if n = 0 then ⟨0, 0, 0, 0⟩
  else
    let size1 := min (f.bufferSize - f.validEnd) n
    let rem := n - size1
    let size2 := if rem = 0 then 0 else min rem f.validStart
    ⟨f.validEnd, size1, 0, size2⟩

/-- JUCE `AbstractFifo::finishedWrite`: advance the write cursor by
`numWritten`, wrapping once past the end of the ring. -/
def finishedWrite (f : AbstractFifo) (numWritten : Nat) : AbstractFifo :=
  let newEnd := f.validEnd + numWritten
  { f with validEnd := if f.bufferSize ≤ newEnd then newEnd - f.bufferSize else newEnd }

/-- JUCE `AbstractFifo::prepareToRead`: hand out up to `numWanted` ready
slots as a window pair starting at the read cursor. -/
def prepareToRead (f : AbstractFifo) (numWanted : Nat) : CircularBufferIndexes :=
  let n := min numWanted (getNumReady f)
  if n = 0 then ⟨0, 0, 0, 0⟩
  else
    let size1 := min (f.bufferSize - f.validStart) n
    let rem := n - size1
    let size2 := if rem = 0 then 0 else min rem f.validEnd
    ⟨f.validStart, size1, 0, size2⟩

/-- JUCE `AbstractFifo::finishedRead`: advance the read cursor by `numRead`,
wrapping once past the end of the ring. -/
def finishedRead (f : AbstractFifo) (numRead : Nat) : AbstractFifo :=
  let newStart := f.validStart + numRead
  { f with validStart := if f.bufferSize ≤ newStart then newStart - f.bufferSize else newStart }

/-- State of `DataQueue`: configuration (`m_blockSize`, `m_numBlocks`,
`m_maxSize = blockSize * numBlocks`, `m_numChans`), the `m_readInProgress`
flag, and the per-channel arrays `m_fifos`, `m_readSamples`, `m_timestamps`
(one `numBlocks`-slot table per channel), `m_lastReadTimestamps`, and the
sample store `m_buffer` (one ring-sized row per channel). -/
structure DataQueue where
  blockSize : Nat
  numBlocks : Nat
  maxSize : Nat
  numChans : Nat
  readInProgress : Bool
  fifos : List AbstractFifo
  readSamples : List Nat
  timestamps : List (List Int)
  lastReadTimestamps : List Int
  buffer : List (List Int)
  deriving DecidableEq, Repr, Inhabited

/-- `DataQueue::DataQueue(blockSize, nBlocks)`: zero channels, empty arrays,
`maxSize = blockSize * nBlocks`, no read in progress. -/
def DataQueue.init (blockSize nBlocks : Nat) : DataQueue :=
  { blockSize := blockSize, numBlocks := nBlocks, maxSize := blockSize * nBlocks,
    numChans := 0, readInProgress := false, fifos := [], readSamples := [],
    timestamps := [], lastReadTimestamps := [], buffer := [] }

/-- `DataQueue::setChannels`: rejected while a read is in progress; otherwise
discard all per-channel state and allocate `nChans` fresh fifos (capacity
`maxSize`), zeroed consumed counts, zero-filled timestamp tables of length
`numBlocks` (JUCE `Array<int64>::resize` value-initialises new slots), zeroed
last-read timestamps, and a re-sized sample store. -/
def setChannels (q : DataQueue) (nChans : Nat) : DataQueue :=
  if q.readInProgress then q
  else
    { q with
      numChans := nChans,
      fifos := List.replicate nChans { bufferSize := q.maxSize, validStart := 0, validEnd := 0 },
      readSamples := List.replicate nChans 0,
      timestamps := List.replicate nChans (List.replicate q.numBlocks (0 : Int)),
      lastReadTimestamps := List.replicate nChans (0 : Int),
      buffer := List.replicate nChans (List.replicate q.maxSize (0 : Int)) }

/-- JUCE `Array::resize` on an `int64` array: truncate to `n` elements or
zero-extend up to `n` elements. -/
def arrayResize (l : List Int) (n : Nat) : List Int :=
  l.take n ++ List.replicate (n - l.length) 0

/-- Body of the `DataQueue::resize` per-channel loop at channel `i`: reset the
fifo to the new total `size`, zero the consumed count, resize the timestamp
table to `nBlocks`, zero the last-read timestamp. -/
def rsStep (size nBlocks : Nat) (qq : DataQueue) (i : Nat) : DataQueue :=
  { qq with
    fifos := qq.fifos.set i { bufferSize := size, validStart := 0, validEnd := 0 },
    readSamples := qq.readSamples.set i 0,
    timestamps := qq.timestamps.set i (arrayResize (qq.timestamps.getD i []) nBlocks),
    lastReadTimestamps := qq.lastReadTimestamps.set i 0 }

/-- `DataQueue::resize`: rejected while a read is in progress; otherwise set
`maxSize := blockSize * nBlocks`, `numBlocks := nBlocks`, run the per-channel
reset loop, and re-size the sample store. -/
def resize (q : DataQueue) (nBlocks : Nat) : DataQueue :=
  if q.readInProgress then q
  else
    let size := q.blockSize * nBlocks
    let q2 := (List.range q.numChans).foldl (rsStep size nBlocks)
      { q with maxSize := size, numBlocks := nBlocks }
    { q2 with buffer := List.replicate q2.numChans (List.replicate size (0 : Int)) }

/-- Windowed copy into one row (`AudioSampleBuffer::copyFrom` for a single
channel): positions `[destStart, destStart + num)` of `dest` are replaced by
`src[srcStart], src[srcStart+1], …`; everything else is kept. -/
def copyRow (dest : List Int) (destStart : Nat) (src : List Int) (srcStart : Nat) (num : Nat) :
    List Int :=
  (List.range dest.length).map fun j =>
    if destStart ≤ j ∧ j < destStart + num then src.getD (srcStart + (j - destStart)) 0
    else dest.getD j 0

/-- `m_buffer.copyFrom(channel, destStart, src, channel, srcStart, num)`
acting on the per-channel sample store. -/
def copyFrom (buf : List (List Int)) (channel destStart : Nat) (src : List Int)
    (srcStart num : Nat) : List (List Int) :=
  buf.set channel (copyRow (buf.getD channel []) destStart src srcStart num)

/-- `DataQueue::fillTimestamps`, translated verbatim from the C++ — including
the fact that every loop iteration writes the same slot `blockIdx` and that
the stored value is `startTimestamp + i * m_blockSize` with `i` stepping by
`m_blockSize` (so iteration `k` has `i = k * blockSize`).  The C++ loop
`for (int i = 0; i < size; i += m_blockSize)` runs `⌈size / blockSize⌉`
iterations; `blockSize` is positive in any queue the C++ can construct
(`blockSize = 0` would already fault at `index % m_blockSize`). -/
def fillTimestamps (q : DataQueue) (channel index size : Nat) (timestamp : Int) : DataQueue :=
  let blockMod := index % q.blockSize
  let blockIdx0 := index / q.blockSize
  let startTimestamp :=
    if blockMod = 0 then timestamp else timestamp + ((q.blockSize - blockMod : Nat) : Int)
  let blockStartPos := if blockMod = 0 then index else index + (q.blockSize - blockMod)
  let blockIdx := if blockMod = 0 then blockIdx0 else blockIdx0 + 1
  let steps := (size + q.blockSize - 1) / q.blockSize
  let tbl := (List.range steps).foldl
    (fun t k =>
      if blockStartPos + k * q.blockSize < index + size then
        t.set blockIdx (startTimestamp + ((k * q.blockSize * q.blockSize : Nat) : Int))
      else t)
    (q.timestamps.getD channel [])
  { q with timestamps := q.timestamps.set channel tbl }

/-- `DataQueue::writeChannel`: reserve a window pair for `nSamples`, copy the
source row into the store (window 1, then window 2 when wraparound occurred),
stamp block timestamps per window (window 2 starts `size1` samples later in
time), then commit `size1 + size2` to the write cursor.  The overflow
`printf` emitted when `size1 + size2 < nSamples` changes no state. -/
def writeChannel (q : DataQueue) (src : List Int) (channel nSamples : Nat) (timestamp : Int) :
    DataQueue :=
  let f := q.fifos.getD channel default
  let w := prepareToWrite f nSamples
  let q2 := fillTimestamps
    { q with buffer := copyFrom q.buffer channel w.index1 src 0 w.size1 }
    channel w.index1 w.size1 timestamp
  let q3 :=
    if 0 < w.size2 then
      fillTimestamps
        { q2 with buffer := copyFrom q2.buffer channel w.index2 src w.size1 w.size2 }
        channel w.index2 w.size2 (timestamp + (w.size1 : Int))
    else q2
  { q3 with fifos := q3.fifos.set channel (finishedWrite f (w.size1 + w.size2)) }

/-- Ready count of channel `chan`: `m_fifos[chan]->getNumReady()`. -/
def readyToRead (q : DataQueue) (chan : Nat) : Nat := getNumReady (q.fifos.getD chan default)

/-- Per-channel request size in `startRead`:
`((readyToRead > nMax) && (nMax > 0)) ? nMax : readyToRead` over C++ ints, so
the cap applies only for strictly positive `nMax` below the ready count. -/
def samplesToRead (q : DataQueue) (nMax : Int) (chan : Nat) : Nat :=
  let r := readyToRead q chan
  if nMax < (r : Int) ∧ 0 < nMax then nMax.toNat else r

/-- Window pair the `startRead` loop obtains for channel `chan`. -/
def readIdx (q : DataQueue) (nMax : Int) (chan : Nat) : CircularBufferIndexes :=
  prepareToRead (q.fifos.getD chan default) (samplesToRead q nMax chan)

/-- Total `size1 + size2` consumed for channel `chan` by a `startRead` on `q`. -/
def consumedOf (q : DataQueue) (nMax : Int) (chan : Nat) : Nat :=
  (readIdx q nMax chan).size1 + (readIdx q nMax chan).size2

/-- Distance from ring position `i1` to the next block boundary, `0` when
aligned (`blockDiff` in `startRead`). -/
def blockDiffOf (q : DataQueue) (i1 : Nat) : Nat :=
  let m := i1 % q.blockSize
  if m = 0 then 0 else q.blockSize - m

/-- Wrapped table slot of the block whose boundary is the first one at or
after the read window start: `((index1 + blockDiff) / blockSize) % numBlocks`. -/
def boundaryBlockIdx (q : DataQueue) (nMax : Int) (chan : Nat) : Nat :=
  ((readIdx q nMax chan).index1 + blockDiffOf q (readIdx q nMax chan).index1)
    / q.blockSize % q.numBlocks

/-- Reconciled first-sample timestamp the `startRead` loop emits for channel
`chan`: the stamped block-start time back-projected by `blockDiff` when the
next boundary falls inside the consumed range, the carried-forward
`m_lastReadTimestamps[chan]` otherwise. -/
def reconTs (q : DataQueue) (nMax : Int) (chan : Nat) : Int :=
  let idx := readIdx q nMax chan
  let bd := blockDiffOf q idx.index1
  if bd < idx.size1 + idx.size2 then
    (q.timestamps.getD chan []).getD (boundaryBlockIdx q nMax chan) 0 - (bd : Int)
  else q.lastReadTimestamps.getD chan 0

/-- One iteration of the `startRead` per-channel loop: record the consumed
count, append the window pair and the reconciled timestamp, and advance
`m_lastReadTimestamps[chan]` to just past this window. -/
def srStep (nMax : Int) (acc : DataQueue × List CircularBufferIndexes × List Int) (chan : Nat) :
    DataQueue × List CircularBufferIndexes × List Int :=
  ({ acc.1 with
      readSamples := acc.1.readSamples.set chan (consumedOf acc.1 nMax chan),
      lastReadTimestamps :=
        acc.1.lastReadTimestamps.set chan
          (reconTs acc.1 nMax chan + ((consumedOf acc.1 nMax chan : Nat) : Int)) },
    acc.2.1 ++ [readIdx acc.1 nMax chan], acc.2.2 ++ [reconTs acc.1 nMax chan])

/-- The `startRead` loop over channels `0, …, n-1` starting from state `p`
with empty output arrays. -/
def srFold (p : DataQueue) (nMax : Int) (n : Nat) :
    DataQueue × List CircularBufferIndexes × List Int :=
  (List.range n).foldl (srStep nMax) (p, [], [])

/-- `DataQueue::startRead(indexes, timestamps, nMax)`, returning
`(result, indexes, timestamps, new state)`: fails fast when a session is
already open, otherwise opens the session and runs the per-channel loop. -/
def startRead (q : DataQueue) (nMax : Int) :
    Bool × List CircularBufferIndexes × List Int × DataQueue :=
  if q.readInProgress then (false, [], [], q)
  else
    let a := srFold { q with readInProgress := true } nMax q.numChans
    (true, a.2.1, a.2.2, a.1)

/-- Body of the `DataQueue::stopRead` per-channel loop at channel `i`: commit
the recorded consumed count to the fifo and reset it to zero. -/
def stStep (qq : DataQueue) (i : Nat) : DataQueue :=
  { qq with
    fifos := qq.fifos.set i (finishedRead (qq.fifos.getD i default) (qq.readSamples.getD i 0)),
    readSamples := qq.readSamples.set i 0 }

/-- The `stopRead` loop over channels `0, …, n-1`. -/
def stFold (p : DataQueue) (n : Nat) : DataQueue := (List.range n).foldl stStep p

/-- `DataQueue::stopRead`: silent no-op when no session is open; otherwise
commit every channel's consumed count and close the session. -/
def stopRead (q : DataQueue) : DataQueue :=
  if q.readInProgress then { stFold q q.numChans with readInProgress := false } else q

/-- Ring-allocator well-formedness that JUCE `AbstractFifo` maintains: both
cursors stay strictly inside the ring. -/
def FifoWF (f : AbstractFifo) : Prop :=
  f.validStart < f.bufferSize ∧ f.validEnd < f.bufferSize

instance instDecFifoWF (f : AbstractFifo) : Decidable (FifoWF f) := by
  unfold FifoWF; infer_instance

/-- Boolean test: ring position `p` currently holds unread (ready) data. -/
def inReadyRegionB (f : AbstractFifo) (p : Nat) : Bool :=
  if f.validStart ≤ f.validEnd then decide (f.validStart ≤ p ∧ p < f.validEnd)
  else decide ((f.validStart ≤ p ∧ p < f.bufferSize) ∨ p < f.validEnd)

/-- The unread portion of a sample-store row, listed in ring order. -/
def readySlice (f : AbstractFifo) (row : List Int) : List Int :=
  ((List.range f.bufferSize).filter (inReadyRegionB f)).map fun p => row.getD p 0

/-- Invariant of claim C9: whenever no read session is open, the recorded
consumed count of every channel is zero. -/
def ZeroWhenIdle (q : DataQueue) : Prop :=
  q.readInProgress = false → ∀ chan, chan < q.numChans → q.readSamples.getD chan 0 = 0

instance instDecZeroWhenIdle (q : DataQueue) : Decidable (ZeroWhenIdle q) := by
  unfold ZeroWhenIdle; infer_instance

/-- Condition of the `startRead` fallback branch for channel `chan`: the next
block boundary does not fall inside the consumed range (no fresh boundary is
touched by the read window). -/
def noFreshBoundary (q : DataQueue) (nMax : Int) (chan : Nat) : Prop :=
  ¬ blockDiffOf q (readIdx q nMax chan).index1 < consumedOf q nMax chan

instance instDecNoFreshBoundary (q : DataQueue) (nMax : Int) (chan : Nat) :
    Decidable (noFreshBoundary q nMax chan) := by
  unfold noFreshBoundary; infer_instance

/-- Reconciled timestamp a `startRead` on `q` returns for channel `chan`. -/
def sessionTs (q : DataQueue) (nMax : Int) (chan : Nat) : Int :=
  (startRead q nMax).2.2.1.getD chan 0

/-- Consumed length a `startRead` on `q` reports for channel `chan`. -/
def sessionConsumed (q : DataQueue) (nMax : Int) (chan : Nat) : Nat :=
  ((startRead q nMax).2.1.getD chan default).size1
    + ((startRead q nMax).2.1.getD chan default).size2

/-- Queue state after a `startRead` on `q`. -/
def sessionQ (q : DataQueue) (nMax : Int) : DataQueue := (startRead q nMax).2.2.2

/-- Operations that may run between two read sessions of one consumer:
producer writes and the closing `stopRead`. -/
inductive QOp where
  | write (src : List Int) (chan nSamples : Nat) (timestamp : Int)
  | stop

/-- Apply one queue operation. -/
def applyOp (q : DataQueue) : QOp → DataQueue
  | QOp.write src chan n ts => writeChannel q src chan n ts
  | QOp.stop => stopRead q

/-- Apply a sequence of queue operations in order. -/
def applyOps (q : DataQueue) (ops : List QOp) : DataQueue := ops.foldl applyOp q

/-- Concrete queue used by several witnesses: one channel, `blockSize = 4`,
`numBlocks = 2`, six unread samples at ring positions `0…5`. -/
def qA : DataQueue :=
  { blockSize := 4, numBlocks := 2, maxSize := 8, numChans := 1, readInProgress := false,
    fifos := [⟨8, 0, 6⟩], readSamples := [0], timestamps := [[100, 104]],
    lastReadTimestamps := [7], buffer := [[11, 12, 13, 14, 15, 16, 17, 18]] }

/-- Allocator state of `qA`'s only channel, used by the C4 witness. -/
def fA : AbstractFifo := ⟨8, 0, 6⟩

/-- Window pair `qA`'s allocator grants an (overflowing) request of 5, used
by the C4 witness. -/
def wA : CircularBufferIndexes := prepareToWrite fA 5

/-- Concrete queue with an open read session, for the reentrancy witnesses. -/
def qR : DataQueue :=
  { blockSize := 2, numBlocks := 2, maxSize := 4, numChans := 1, readInProgress := true,
    fifos := [⟨4, 0, 2⟩], readSamples := [2], timestamps := [[9, 9]],
    lastReadTimestamps := [3], buffer := [[1, 2, 3, 4]] }

/-- Empty one-channel queue with `blockSize = 2`, `numBlocks = 4`, used to
exhibit the `fillTimestamps` slot bug (claim C1). -/
def q1c : DataQueue :=
  { blockSize := 2, numBlocks := 4, maxSize := 8, numChans := 1, readInProgress := false,
    fifos := [⟨8, 0, 0⟩], readSamples := [0], timestamps := [[0, 0, 0, 0]],
    lastReadTimestamps := [0], buffer := [List.replicate 8 0] }

/-- Family of queues for claim C8: `blockSize = 10`, `nb` blocks, one channel
whose ring cursors sit at offset 3 (so the next write window starts there). -/
def q8 (nb : Nat) : DataQueue :=
  { blockSize := 10, numBlocks := nb, maxSize := 10 * nb, numChans := 1, readInProgress := false,
    fifos := [⟨10 * nb, 3, 3⟩], readSamples := [0], timestamps := [List.replicate nb 0],
    lastReadTimestamps := [0], buffer := [List.replicate (10 * nb) 0] }

/-- Queue with `blockSize = 1` (every position block-aligned) used to build
the C3 monotonicity counterexample. -/
def cexQ0 : DataQueue :=
  { blockSize := 1, numBlocks := 4, maxSize := 4, numChans := 1, readInProgress := false,
    fifos := [⟨4, 0, 0⟩], readSamples := [0], timestamps := [[0, 0, 0, 0]],
    lastReadTimestamps := [0], buffer := [List.replicate 4 0] }

/-- C3 counterexample, step 1: one sample with timestamp 100 is written. -/
def cexS1 : DataQueue := writeChannel cexQ0 [7] 0 1 100

/-- C3 counterexample, step 2: after reading that sample and closing the
session, one sample with the smaller timestamp 50 is written. -/
def cexS3 : DataQueue := writeChannel (stopRead (startRead cexS1 0).2.2.2) [8] 0 1 50

/-- Queue for the C3 amended-claim witness: first session starts misaligned
(ring position 1, `blockSize = 4`) and reads 2 samples, touching no boundary. -/
def q1w : DataQueue :=
  { blockSize := 4, numBlocks := 2, maxSize := 8, numChans := 1, readInProgress := false,
    fifos := [⟨8, 1, 3⟩], readSamples := [0], timestamps := [[0, 0]],
    lastReadTimestamps := [500], buffer := [List.replicate 8 0] }

/-- Base state of the `resize` per-channel loop: `maxSize` and `numBlocks`
already updated (stated for an idle queue, `readInProgress = false`). -/
def rsBase (q : DataQueue) (nBlocks : Nat) : DataQueue :=
  { q with
    maxSize := q.blockSize * nBlocks
    numBlocks := nBlocks
    readInProgress := false }

theorem getElem?_set' {α : Type} (l : List α) (i j : Nat) (a : α) :
    (l.set i a)[j]? = if i = j ∧ i < l.length then some a else l[j]? := by
  by_cases h : i = j
  · subst h
    by_cases hl : i < l.length
    · simp [List.getElem?_set_self hl, hl]
    · simp [List.set_eq_of_length_le (Nat.le_of_not_lt hl), hl]
  · simp [List.getElem?_set_ne h, h]

theorem stFold_succ (p : DataQueue) (n : Nat) :
    stFold p (n + 1) = stStep (stFold p n) n := by
  simp [stFold, List.range_succ]

theorem stFold_fields (p : DataQueue) (n : Nat) :
    (stFold p n).blockSize = p.blockSize ∧ (stFold p n).numBlocks = p.numBlocks ∧
    (stFold p n).maxSize = p.maxSize ∧ (stFold p n).numChans = p.numChans ∧
    (stFold p n).readInProgress = p.readInProgress ∧
    (stFold p n).timestamps = p.timestamps ∧
    (stFold p n).lastReadTimestamps = p.lastReadTimestamps ∧
    (stFold p n).buffer = p.buffer ∧
    (stFold p n).fifos.length = p.fifos.length ∧
    (stFold p n).readSamples.length = p.readSamples.length := by
  induction n with
  | zero => simp [stFold]
  | succ n ih =>
    rw [stFold_succ]
    simpa [stStep] using ih

theorem stFold_untouched (p : DataQueue) (n c : Nat) (hc : n ≤ c) :
    (stFold p n).fifos[c]? = p.fifos[c]? ∧ (stFold p n).readSamples[c]? = p.readSamples[c]? := by
  induction n with
  | zero => simp [stFold]
  | succ n ih =>
    have hne : n ≠ c := by omega
    have ih' := ih (by omega)
    rw [stFold_succ]
    simp only [stStep, List.getElem?_set_ne hne]
    exact ih'

theorem stFold_done (p : DataQueue) (n c : Nat) (hc : c < n) :
    (stFold p n).fifos[c]? =
      (p.fifos.set c (finishedRead (p.fifos.getD c default) (p.readSamples.getD c 0)))[c]? ∧
    (stFold p n).readSamples[c]? = (p.readSamples.set c 0)[c]? := by
  induction n with
  | zero => omega
  | succ n ih =>
    by_cases h : c < n
    · have hne : n ≠ c := by omega
      rw [stFold_succ]
      simp only [stStep, List.getElem?_set_ne hne]
      exact ih h
    · have hcn : c = n := by omega
      subst hcn
      have hu := stFold_untouched p c c (Nat.le_refl c)
      have hlenf : (stFold p c).fifos.length = p.fifos.length :=
        (stFold_fields p c).2.2.2.2.2.2.2.2.1
      have hlenr : (stFold p c).readSamples.length = p.readSamples.length :=
        (stFold_fields p c).2.2.2.2.2.2.2.2.2
      have h1 : (stFold p c).fifos.getD c default = p.fifos.getD c default := by
        rw [List.getD_eq_getElem?_getD, List.getD_eq_getElem?_getD, hu.1]
      have h2 : (stFold p c).readSamples.getD c 0 = p.readSamples.getD c 0 := by
        rw [List.getD_eq_getElem?_getD, List.getD_eq_getElem?_getD, hu.2]
      rw [stFold_succ]
      constructor
      · show ((stFold p c).fifos.set c (finishedRead ((stFold p c).fifos.getD c default)
          ((stFold p c).readSamples.getD c 0)))[c]? = _
        rw [h1, h2, getElem?_set', getElem?_set', hlenf, hu.1]
      · show ((stFold p c).readSamples.set c 0)[c]? = _
        rw [getElem?_set', getElem?_set', hlenr, hu.2]

/-- C7: `stopRead` with no open session changes nothing; with an open session
it clears the read-in-progress flag and, for the given channel, commits
exactly the recorded consumed length to the ring allocator via
`finishedRead` and resets the recorded length to zero. -/
theorem C7_stopRead (q : DataQueue) (chan : Nat)
    (hf : q.fifos.length = q.numChans) (hr : q.readSamples.length = q.numChans)
    (hchan : chan < q.numChans) :
    (q.readInProgress = false → stopRead q = q) ∧
    (q.readInProgress = true →
      (stopRead q).readInProgress = false ∧
      (stopRead q).fifos[chan]? =
        some (finishedRead (q.fifos.getD chan default) (q.readSamples.getD chan 0)) ∧
      (stopRead q).readSamples[chan]? = some 0) := by
  constructor
  · intro h
    simp [stopRead, h]
  · intro h
    have hd := stFold_done q q.numChans chan hchan
    have hs : stopRead q = { stFold q q.numChans with readInProgress := false } := by
      simp [stopRead, h]
    rw [hs]
    refine ⟨rfl, ?_, ?_⟩
    · show (stFold q q.numChans).fifos[chan]? = _
      rw [hd.1, getElem?_set']
      simp [hf, hchan]
    · show (stFold q q.numChans).readSamples[chan]? = _
      rw [hd.2, getElem?_set']
      simp [hr, hchan]

/-- Witness for C7 at the concrete open-session queue `qR`. -/
theorem C7_stopRead_witness :
    (qR.readInProgress = false → stopRead qR = qR) ∧
    (qR.readInProgress = true →
      (stopRead qR).readInProgress = false ∧
      (stopRead qR).fifos[0]? =
        some (finishedRead (qR.fifos.getD 0 default) (qR.readSamples.getD 0 0)) ∧
      (stopRead qR).readSamples[0]? = some 0) :=
  C7_stopRead qR 0 (by decide) (by decide) (by decide)

/-- C5: a `startRead` while a session is already open returns `false` and
leaves the entire queue state unchanged (it also leaves the caller's output
arrays cleared-as-given, returned here as empty lists). -/
theorem C5_startRead_reentrancy (q : DataQueue) (nMax : Int)
    (h : q.readInProgress = true) :
    startRead q nMax = (false, [], [], q) := by
  simp [startRead, h]

/-- Witness for C5 at the concrete open-session queue `qR`. -/
theorem C5_startRead_reentrancy_witness :
    qR.readInProgress = true ∧ startRead qR 3 = (false, [], [], qR) :=
  ⟨by decide, C5_startRead_reentrancy qR 3 (by decide)⟩

/-- C6: while a read session is open, `setChannels` and `resize` are rejected
as no-ops: the whole state — ring allocators, timestamp tables, last-read
timestamps, sample store, channel count — is left unchanged (the C++
functions return `void`, so the rejection is observable only as the no-op). -/
theorem C6_config_rejected (q : DataQueue) (nChans nBlocks : Nat)
    (h : q.readInProgress = true) :
    setChannels q nChans = q ∧ resize q nBlocks = q := by
  constructor
  · simp [setChannels, h]
  · simp [resize, h]

/-- Witness for C6 at the concrete open-session queue `qR`. -/
theorem C6_config_rejected_witness :
    qR.readInProgress = true ∧ setChannels qR 3 = qR ∧ resize qR 5 = qR :=
  ⟨by decide, C6_config_rejected qR 3 5 (by decide)⟩

theorem readIdx_congr (q1 q2 : DataQueue) (nMax : Int) (chan : Nat)
    (hf : q1.fifos = q2.fifos) : readIdx q1 nMax chan = readIdx q2 nMax chan := by
  simp [readIdx, samplesToRead, readyToRead, hf]

theorem consumedOf_congr (q1 q2 : DataQueue) (nMax : Int) (chan : Nat)
    (hf : q1.fifos = q2.fifos) : consumedOf q1 nMax chan = consumedOf q2 nMax chan := by
  simp [consumedOf, readIdx_congr q1 q2 nMax chan hf]

theorem reconTs_congr (q1 q2 : DataQueue) (nMax : Int) (chan : Nat)
    (hf : q1.fifos = q2.fifos) (hbs : q1.blockSize = q2.blockSize)
    (hnb : q1.numBlocks = q2.numBlocks) (ht : q1.timestamps = q2.timestamps)
    (hl : q1.lastReadTimestamps[chan]? = q2.lastReadTimestamps[chan]?) :
    reconTs q1 nMax chan = reconTs q2 nMax chan := by
  simp only [reconTs, boundaryBlockIdx, blockDiffOf, readIdx_congr q1 q2 nMax chan hf,
    hbs, hnb, ht, List.getD_eq_getElem?_getD, hl]

theorem srFold_succ (p : DataQueue) (nMax : Int) (n : Nat) :
    srFold p nMax (n + 1) = srStep nMax (srFold p nMax n) n := by
  simp [srFold, List.range_succ]

theorem srFold_fields (p : DataQueue) (nMax : Int) (n : Nat) :
    (srFold p nMax n).1.fifos = p.fifos ∧ (srFold p nMax n).1.timestamps = p.timestamps ∧
    (srFold p nMax n).1.blockSize = p.blockSize ∧ (srFold p nMax n).1.numBlocks = p.numBlocks ∧
    (srFold p nMax n).1.maxSize = p.maxSize ∧ (srFold p nMax n).1.numChans = p.numChans ∧
    (srFold p nMax n).1.buffer = p.buffer ∧
    (srFold p nMax n).1.readInProgress = p.readInProgress ∧
    (srFold p nMax n).1.readSamples.length = p.readSamples.length ∧
    (srFold p nMax n).1.lastReadTimestamps.length = p.lastReadTimestamps.length := by
  induction n with
  | zero => simp [srFold]
  | succ n ih => rw [srFold_succ]; simpa [srStep] using ih

theorem srFold_untouched (p : DataQueue) (nMax : Int) (n c : Nat) (hc : n ≤ c) :
    (srFold p nMax n).1.lastReadTimestamps[c]? = p.lastReadTimestamps[c]? ∧
    (srFold p nMax n).1.readSamples[c]? = p.readSamples[c]? := by
  induction n with
  | zero => simp [srFold]
  | succ n ih =>
    have hne : n ≠ c := by omega
    have ih' := ih (by omega)
    rw [srFold_succ]
    simp only [srStep, List.getElem?_set_ne hne]
    exact ih'

theorem srFold_step_vals (p : DataQueue) (nMax : Int) (n : Nat) :
    readIdx (srFold p nMax n).1 nMax n = readIdx p nMax n ∧
    consumedOf (srFold p nMax n).1 nMax n = consumedOf p nMax n ∧
    reconTs (srFold p nMax n).1 nMax n = reconTs p nMax n := by
  have hf := srFold_fields p nMax n
  have hu := srFold_untouched p nMax n n (Nat.le_refl n)
  exact ⟨readIdx_congr _ _ nMax n hf.1, consumedOf_congr _ _ nMax n hf.1,
    reconTs_congr _ _ nMax n hf.1 hf.2.2.1 hf.2.2.2.1 hf.2.1 hu.1⟩

theorem srFold_out (p : DataQueue) (nMax : Int) (n : Nat) :
    (srFold p nMax n).2.1 = (List.range n).map (fun c => readIdx p nMax c) ∧
    (srFold p nMax n).2.2 = (List.range n).map (fun c => reconTs p nMax c) := by
  induction n with
  | zero => simp [srFold]
  | succ n ih =>
    rw [srFold_succ]
    have hv := srFold_step_vals p nMax n
    simp only [srStep, List.range_succ, List.map_append, List.map_cons, List.map_nil]
    exact ⟨by rw [ih.1, hv.1], by rw [ih.2, hv.2.2]⟩

theorem srFold_written (p : DataQueue) (nMax : Int) (n c : Nat) (hc : c < n) :
    (srFold p nMax n).1.lastReadTimestamps[c]? =
      (p.lastReadTimestamps.set c
        (reconTs p nMax c + ((consumedOf p nMax c : Nat) : Int)))[c]? ∧
    (srFold p nMax n).1.readSamples[c]? = (p.readSamples.set c (consumedOf p nMax c))[c]? := by
  induction n with
  | zero => omega
  | succ n ih =>
    by_cases h : c < n
    · have hne : n ≠ c := by omega
      rw [srFold_succ]
      simp only [srStep, List.getElem?_set_ne hne]
      exact ih h
    · have hcn : c = n := by omega
      subst hcn
      have hv := srFold_step_vals p nMax c
      have hlenr : (srFold p nMax c).1.readSamples.length = p.readSamples.length :=
        (srFold_fields p nMax c).2.2.2.2.2.2.2.2.1
      have hlenl : (srFold p nMax c).1.lastReadTimestamps.length = p.lastReadTimestamps.length :=
        (srFold_fields p nMax c).2.2.2.2.2.2.2.2.2
      have hu := srFold_untouched p nMax c c (Nat.le_refl c)
      rw [srFold_succ]
      constructor
      · show ((srFold p nMax c).1.lastReadTimestamps.set c
            (reconTs (srFold p nMax c).1 nMax c +
              ((consumedOf (srFold p nMax c).1 nMax c : Nat) : Int)))[c]? = _
        rw [hv.2.1, hv.2.2, getElem?_set', getElem?_set', hlenl, hu.1]
      · show ((srFold p nMax c).1.readSamples.set c
            (consumedOf (srFold p nMax c).1 nMax c))[c]? = _
        rw [hv.2.1, getElem?_set', getElem?_set', hlenr, hu.2]

theorem startRead_run (q : DataQueue) (nMax : Int) (hrip : q.readInProgress = false) :
    startRead q nMax =
      (true, (srFold { q with readInProgress := true } nMax q.numChans).2.1,
        (srFold { q with readInProgress := true } nMax q.numChans).2.2,
        (srFold { q with readInProgress := true } nMax q.numChans).1) := by
  simp [startRead, hrip]

theorem startRead_spec (q : DataQueue) (nMax : Int) (chan : Nat)
    (hrip : q.readInProgress = false) (hchan : chan < q.numChans) :
    (startRead q nMax).1 = true ∧
    (startRead q nMax).2.1[chan]? = some (readIdx q nMax chan) ∧
    (startRead q nMax).2.2.1[chan]? = some (reconTs q nMax chan) ∧
    (startRead q nMax).2.2.2.readInProgress = true ∧
    (startRead q nMax).2.2.2.lastReadTimestamps[chan]? =
      (q.lastReadTimestamps.set chan
        (reconTs q nMax chan + ((consumedOf q nMax chan : Nat) : Int)))[chan]? ∧
    (startRead q nMax).2.2.2.readSamples[chan]? =
      (q.readSamples.set chan (consumedOf q nMax chan))[chan]? ∧
    (startRead q nMax).2.2.2.fifos = q.fifos ∧
    (startRead q nMax).2.2.2.timestamps = q.timestamps ∧
    (startRead q nMax).2.2.2.numChans = q.numChans ∧
    (startRead q nMax).2.2.2.blockSize = q.blockSize ∧
    (startRead q nMax).2.2.2.numBlocks = q.numBlocks ∧
    (startRead q nMax).2.2.2.lastReadTimestamps.length = q.lastReadTimestamps.length ∧
    (startRead q nMax).2.2.2.readSamples.length = q.readSamples.length := by
  have hp : ({ q with readInProgress := true } : DataQueue).numChans = q.numChans := rfl
  have hrun := startRead_run q nMax hrip
  rw [hrun]
  have hout := srFold_out { q with readInProgress := true } nMax q.numChans
  have hw := srFold_written { q with readInProgress := true } nMax q.numChans chan hchan
  have hf := srFold_fields { q with readInProgress := true } nMax q.numChans
  have hidx : readIdx { q with readInProgress := true } nMax chan = readIdx q nMax chan :=
    readIdx_congr _ _ nMax chan rfl
  have hcons : consumedOf { q with readInProgress := true } nMax chan = consumedOf q nMax chan :=
    consumedOf_congr _ _ nMax chan rfl
  have hts : reconTs { q with readInProgress := true } nMax chan = reconTs q nMax chan :=
    reconTs_congr _ _ nMax chan rfl rfl rfl rfl rfl
  refine ⟨rfl, ?_, ?_, hf.2.2.2.2.2.2.2.1, ?_, ?_, hf.1, hf.2.1, hf.2.2.2.2.2.1, hf.2.2.1,
    hf.2.2.2.1, hf.2.2.2.2.2.2.2.2.2, hf.2.2.2.2.2.2.2.2.1⟩
  · rw [hout.1, List.getElem?_map, List.getElem?_range hchan]
    simp [hidx]
  · rw [hout.2, List.getElem?_map, List.getElem?_range hchan]
    simp [hts]
  · rw [hw.1, hts, hcons]
  · rw [hw.2, hcons]

/-- C2: for every successful `startRead` and channel, with `blockOffset` the
distance from the first returned read index to the next block boundary (0 if
aligned): when `blockOffset` is strictly below the consumed length, the
returned reconciled timestamp is the timestamp-table entry of the block
containing that boundary minus `blockOffset`; otherwise it is the channel's
previous `lastReadTimestamps` value; in both cases `lastReadTimestamps` is
left at the reconciled timestamp plus the consumed length. -/
theorem C2_read_reconciliation (q : DataQueue) (nMax : Int) (chan : Nat)
    (hrip : q.readInProgress = false) (hchan : chan < q.numChans)
    (hlen : chan < q.lastReadTimestamps.length) :
    (startRead q nMax).1 = true ∧
    (startRead q nMax).2.1.getD chan default = readIdx q nMax chan ∧
    (blockDiffOf q (readIdx q nMax chan).index1 < consumedOf q nMax chan →
      (startRead q nMax).2.2.1.getD chan 0 =
        (q.timestamps.getD chan []).getD (boundaryBlockIdx q nMax chan) 0
          - ((blockDiffOf q (readIdx q nMax chan).index1 : Nat) : Int)) ∧
    (¬ blockDiffOf q (readIdx q nMax chan).index1 < consumedOf q nMax chan →
      (startRead q nMax).2.2.1.getD chan 0 = q.lastReadTimestamps.getD chan 0) ∧
    (startRead q nMax).2.2.2.lastReadTimestamps.getD chan 0 =
      (startRead q nMax).2.2.1.getD chan 0 + ((consumedOf q nMax chan : Nat) : Int) := by
  obtain ⟨hA, hB, hC, _, hE, _, _⟩ := startRead_spec q nMax chan hrip hchan
  have hts : (startRead q nMax).2.2.1.getD chan 0 = reconTs q nMax chan := by
    rw [List.getD_eq_getElem?_getD, hC]
    rfl
  have hidx : (startRead q nMax).2.1.getD chan default = readIdx q nMax chan := by
    rw [List.getD_eq_getElem?_getD, hB]
    rfl
  have hlast : (startRead q nMax).2.2.2.lastReadTimestamps.getD chan 0 =
      reconTs q nMax chan + ((consumedOf q nMax chan : Nat) : Int) := by
    rw [List.getD_eq_getElem?_getD, hE, getElem?_set']
    simp [hlen]
  refine ⟨hA, hidx, ?_, ?_, ?_⟩
  · intro h
    rw [hts]
    simp only [consumedOf] at h
    simp only [reconTs, if_pos h]
  · intro h
    rw [hts]
    simp only [consumedOf] at h
    simp only [reconTs, if_neg h]
  · rw [hlast, hts]

/-- Witness for C2 at the concrete queue `qA` (aligned read of 6 samples). -/
theorem C2_read_reconciliation_witness :
    qA.readInProgress = false ∧ 0 < qA.numChans ∧ 0 < qA.lastReadTimestamps.length ∧
    ((startRead qA 0).1 = true ∧
     (startRead qA 0).2.1.getD 0 default = readIdx qA 0 0 ∧
     (blockDiffOf qA (readIdx qA 0 0).index1 < consumedOf qA 0 0 →
       (startRead qA 0).2.2.1.getD 0 0 =
         (qA.timestamps.getD 0 []).getD (boundaryBlockIdx qA 0 0) 0
           - ((blockDiffOf qA (readIdx qA 0 0).index1 : Nat) : Int)) ∧
     (¬ blockDiffOf qA (readIdx qA 0 0).index1 < consumedOf qA 0 0 →
       (startRead qA 0).2.2.1.getD 0 0 = qA.lastReadTimestamps.getD 0 0) ∧
     (startRead qA 0).2.2.2.lastReadTimestamps.getD 0 0 =
       (startRead qA 0).2.2.1.getD 0 0 + ((consumedOf qA 0 0 : Nat) : Int)) :=
  ⟨by decide, by decide, by decide,
    C2_read_reconciliation qA 0 0 (by decide) (by decide) (by decide)⟩

theorem samplesToRead_nonpos (q : DataQueue) (nMax : Int) (chan : Nat) (h : ¬ 0 < nMax) :
    samplesToRead q nMax chan = readyToRead q chan := by
  simp [samplesToRead, h]

theorem readIdx_nonpos (q : DataQueue) (nMax : Int) (chan : Nat) (h : ¬ 0 < nMax) :
    readIdx q nMax chan = readIdx q 0 chan := by
  simp [readIdx, samplesToRead, h]

theorem consumedOf_nonpos (q : DataQueue) (nMax : Int) (chan : Nat) (h : ¬ 0 < nMax) :
    consumedOf q nMax chan = consumedOf q 0 chan := by
  simp [consumedOf, readIdx_nonpos q nMax chan h]

theorem reconTs_nonpos (q : DataQueue) (nMax : Int) (chan : Nat) (h : ¬ 0 < nMax) :
    reconTs q nMax chan = reconTs q 0 chan := by
  simp only [reconTs, boundaryBlockIdx, readIdx_nonpos q nMax chan h]

theorem startRead_nonpos (q : DataQueue) (nMax : Int) (h : nMax < 0) :
    startRead q nMax = startRead q 0 := by
  have hs : srStep nMax = srStep 0 := by
    funext acc chan
    have hn : ¬ 0 < nMax := by omega
    simp only [srStep, readIdx_nonpos _ _ _ hn, consumedOf_nonpos _ _ _ hn,
      reconTs_nonpos _ _ _ hn]
  simp [startRead, srFold, hs]

theorem prepareToRead_total (f : AbstractFifo) (n : Nat) (hwf : FifoWF f) :
    (prepareToRead f n).size1 + (prepareToRead f n).size2 = min n (getNumReady f) := by
  obtain ⟨h1, h2⟩ := hwf
  by_cases hvs : f.validStart ≤ f.validEnd
  · have hnr : getNumReady f = f.validEnd - f.validStart := by simp [getNumReady, hvs]
    simp only [prepareToRead, hnr]
    split
    · next hz =>
        dsimp only
        omega
    · next hnz =>
        dsimp only
        split
        · next hrem => omega
        · next hrem => omega
  · have hnr : getNumReady f = f.bufferSize - (f.validStart - f.validEnd) := by
      simp [getNumReady, hvs]
    simp only [prepareToRead, hnr]
    split
    · next hz =>
        dsimp only
        omega
    · next hnz =>
        dsimp only
        split
        · next hrem => omega
        · next hrem => omega

/-- C10: a negative `nMax` is treated exactly like `nMax = 0`: the whole
`startRead` result is identical, the call succeeds, and each channel's
consumed length is the full ready-to-read count, never limited by `nMax`. -/
theorem C10_negative_cap (q : DataQueue) (nMax : Int) (chan : Nat)
    (hneg : nMax < 0) (hrip : q.readInProgress = false)
    (hwf : FifoWF (q.fifos.getD chan default)) :
    (startRead q nMax).1 = true ∧
    startRead q nMax = startRead q 0 ∧
    consumedOf q nMax chan = readyToRead q chan := by
  have h0 : ¬ 0 < nMax := by omega
  refine ⟨by simp [startRead, hrip], startRead_nonpos q nMax hneg, ?_⟩
  have hs : samplesToRead q nMax chan = readyToRead q chan :=
    samplesToRead_nonpos q nMax chan h0
  have ht := prepareToRead_total (q.fifos.getD chan default) (samplesToRead q nMax chan) hwf
  simp only [consumedOf, readIdx]
  rw [ht, hs]
  simp [readyToRead]

/-- Witness for C10 at the concrete queue `qA` with `nMax = -3`. -/
theorem C10_negative_cap_witness :
    (-3 : Int) < 0 ∧ qA.readInProgress = false ∧ FifoWF (qA.fifos.getD 0 default) ∧
    ((startRead qA (-3)).1 = true ∧
     startRead qA (-3) = startRead qA 0 ∧
     consumedOf qA (-3) 0 = readyToRead qA 0) :=
  ⟨by decide, by decide, by decide,
    C10_negative_cap qA (-3) 0 (by decide) (by decide) (by decide)⟩

theorem replicate_getD_zero (n c : Nat) : (List.replicate n (0 : Nat)).getD c 0 = 0 := by
  simp [List.getD_eq_getElem?_getD, List.getElem?_replicate]
  split <;> rfl

theorem writeChannel_fields (q : DataQueue) (src : List Int) (channel nSamples : Nat)
    (ts : Int) :
    (writeChannel q src channel nSamples ts).readSamples = q.readSamples ∧
    (writeChannel q src channel nSamples ts).lastReadTimestamps = q.lastReadTimestamps ∧
    (writeChannel q src channel nSamples ts).readInProgress = q.readInProgress ∧
    (writeChannel q src channel nSamples ts).numChans = q.numChans ∧
    (writeChannel q src channel nSamples ts).blockSize = q.blockSize ∧
    (writeChannel q src channel nSamples ts).numBlocks = q.numBlocks ∧
    (writeChannel q src channel nSamples ts).maxSize = q.maxSize := by
  simp only [writeChannel, fillTimestamps]
  split <;> exact ⟨rfl, rfl, rfl, rfl, rfl, rfl, rfl⟩

theorem rsFold_succ (size nBlocks : Nat) (p : DataQueue) (n : Nat) :
    (List.range (n + 1)).foldl (rsStep size nBlocks) p =
      rsStep size nBlocks ((List.range n).foldl (rsStep size nBlocks) p) n := by
  simp [List.range_succ]

theorem rsFold_spec (size nBlocks : Nat) (p : DataQueue) (n c : Nat) :
    ((List.range n).foldl (rsStep size nBlocks) p).numChans = p.numChans ∧
    ((List.range n).foldl (rsStep size nBlocks) p).readInProgress = p.readInProgress ∧
    ((List.range n).foldl (rsStep size nBlocks) p).readSamples.length = p.readSamples.length ∧
    (n ≤ c → ((List.range n).foldl (rsStep size nBlocks) p).readSamples[c]? =
      p.readSamples[c]?) ∧
    (c < n → ((List.range n).foldl (rsStep size nBlocks) p).readSamples[c]? =
      (p.readSamples.set c 0)[c]?) := by
  induction n with
  | zero => simp
  | succ n ih =>
    rw [rsFold_succ]
    refine ⟨by simpa [rsStep] using ih.1, by simpa [rsStep] using ih.2.1,
      by simpa [rsStep] using ih.2.2.1, ?_, ?_⟩
    · intro hc
      have hne : n ≠ c := by omega
      simp only [rsStep, List.getElem?_set_ne hne]
      exact ih.2.2.2.1 (by omega)
    · intro hc
      by_cases h : c < n
      · have hne : n ≠ c := by omega
        simp only [rsStep, List.getElem?_set_ne hne]
        exact ih.2.2.2.2 h
      · have hcn : c = n := by omega
        subst hcn
        simp only [rsStep]
        rw [getElem?_set', getElem?_set', ih.2.2.1]
        by_cases hl : c < p.readSamples.length
        · simp [hl]
        · simp [hl, ih.2.2.2.1 (Nat.le_refl c)]

theorem resize_proj (q : DataQueue) (nBlocks : Nat) (hb : q.readInProgress = false) :
    (resize q nBlocks).numChans =
      ((List.range q.numChans).foldl (rsStep (q.blockSize * nBlocks) nBlocks)
        (rsBase q nBlocks)).numChans ∧
    (resize q nBlocks).readSamples =
      ((List.range q.numChans).foldl (rsStep (q.blockSize * nBlocks) nBlocks)
        (rsBase q nBlocks)).readSamples := by
  unfold resize
  rw [hb, if_neg (by simp)]
  exact ⟨rfl, rfl⟩

/-- C9: whenever no read session is open, every channel's recorded
consumed-length entry is zero; each of the five operations preserves this
invariant. -/
theorem C9_idle_zero_invariant (q : DataQueue) (src : List Int) (channel nSamples : Nat)
    (ts : Int) (nChans nBlocks : Nat) (nMax : Int) (h : ZeroWhenIdle q) :
    ZeroWhenIdle (setChannels q nChans) ∧
    ZeroWhenIdle (resize q nBlocks) ∧
    ZeroWhenIdle (writeChannel q src channel nSamples ts) ∧
    ZeroWhenIdle (sessionQ q nMax) ∧
    ZeroWhenIdle (stopRead q) := by
  refine ⟨?_, ?_, ?_, ?_, ?_⟩
  · by_cases hr : q.readInProgress
    · simpa [setChannels, hr] using h
    · intro _ chan hchan
      simp only [setChannels, hr, if_neg Bool.false_ne_true]
      exact replicate_getD_zero nChans chan
  · by_cases hr : q.readInProgress
    · simpa [resize, hr] using h
    · intro _ chan hchan
      have hb : q.readInProgress = false := by simpa using hr
      have hp := resize_proj q nBlocks hb
      have hs := rsFold_spec (q.blockSize * nBlocks) nBlocks
        (rsBase q nBlocks) q.numChans chan
      rw [hp.1, hs.1] at hchan
      rw [List.getD_eq_getElem?_getD, hp.2, hs.2.2.2.2 hchan, getElem?_set']
      by_cases hl : chan < q.readSamples.length
      · simp [rsBase, hl]
      · have hnone : q.readSamples[chan]? = none :=
          List.getElem?_eq_none_iff.mpr (Nat.le_of_not_lt hl)
        simp [rsBase, hl, hnone]
  · obtain ⟨h1, _, h3, h4, _⟩ := writeChannel_fields q src channel nSamples ts
    intro hf chan hchan
    rw [h1]
    rw [h3] at hf
    rw [h4] at hchan
    exact h hf chan hchan
  · by_cases hr : q.readInProgress
    · have heq : sessionQ q nMax = q := by simp [sessionQ, startRead, hr]
      rw [heq]
      exact h
    · have hb : q.readInProgress = false := by simpa using hr
      have hrt : (sessionQ q nMax).readInProgress = true := by
        have hfd :=
          (srFold_fields { q with readInProgress := true } nMax q.numChans).2.2.2.2.2.2.2.1
        simp only [sessionQ, startRead_run q nMax hb]
        exact hfd
      intro hf
      rw [hrt] at hf
      exact absurd hf (by simp)
  · by_cases hr : q.readInProgress
    · intro _ chan hchan
      have hsn : stopRead q = { stFold q q.numChans with readInProgress := false } := by
        simp [stopRead, hr]
      have hnum : (stopRead q).numChans = q.numChans := by
        rw [hsn]
        exact (stFold_fields q q.numChans).2.2.2.1
      rw [hnum] at hchan
      have hd := (stFold_done q q.numChans chan hchan).2
      rw [List.getD_eq_getElem?_getD, hsn]
      show ((stFold q q.numChans).readSamples[chan]?).getD 0 = 0
      rw [hd, getElem?_set']
      by_cases hl : chan < q.readSamples.length
      · simp [hl]
      · have hnone : q.readSamples[chan]? = none :=
          List.getElem?_eq_none_iff.mpr (Nat.le_of_not_lt hl)
        simp [hl, hnone]
    · have heq : stopRead q = q := by simp [stopRead, hr]
      rw [heq]
      exact h

/-- Witness for C9 at the concrete idle queue `qA`. -/
theorem C9_idle_zero_invariant_witness :
    ZeroWhenIdle qA ∧
    (ZeroWhenIdle (setChannels qA 2) ∧
     ZeroWhenIdle (resize qA 3) ∧
     ZeroWhenIdle (writeChannel qA [3, 4] 0 2 77) ∧
     ZeroWhenIdle (sessionQ qA 0) ∧
     ZeroWhenIdle (stopRead qA)) :=
  ⟨by decide, C9_idle_zero_invariant qA [3, 4] 0 2 77 2 3 0 (by decide)⟩

theorem stopRead_pres (q : DataQueue) :
    (stopRead q).lastReadTimestamps = q.lastReadTimestamps ∧
    (stopRead q).numChans = q.numChans := by
  by_cases hr : q.readInProgress
  · have hsn : stopRead q = { stFold q q.numChans with readInProgress := false } := by
      simp [stopRead, hr]
    rw [hsn]
    exact ⟨(stFold_fields q q.numChans).2.2.2.2.2.2.1, (stFold_fields q q.numChans).2.2.2.1⟩
  · simp [stopRead, hr]

theorem applyOps_pres (q : DataQueue) (ops : List QOp) :
    (applyOps q ops).lastReadTimestamps = q.lastReadTimestamps ∧
    (applyOps q ops).numChans = q.numChans := by
  induction ops generalizing q with
  | nil => simp [applyOps]
  | cons op ops ih =>
    have hstep : applyOps q (op :: ops) = applyOps (applyOp q op) ops := rfl
    rw [hstep]
    cases op with
    | write src chan n ts =>
      have hi := ih (writeChannel q src chan n ts)
      have hw := writeChannel_fields q src chan n ts
      exact ⟨hi.1.trans hw.2.1, hi.2.trans hw.2.2.2.1⟩
    | stop =>
      have hi := ih (stopRead q)
      have hsp := stopRead_pres q
      exact ⟨hi.1.trans hsp.1, hi.2.trans hsp.2⟩

/-- C3 counterexample: the unconditional monotonicity part of the claim is
false.  On `cexQ0` (blockSize 1), a write of one sample stamped 100 is read
back (reconciled 100); after `stopRead`, a second write stamped 50 is read
back with reconciled timestamp 50 < 100 — successive reconciled timestamps
decrease for this sequence of `writeChannel`/`startRead`/`stopRead` calls. -/
theorem C3_monotonicity_counterexample :
    (startRead cexS1 0).1 = true ∧
    (startRead cexS3 0).1 = true ∧
    (startRead cexS1 0).2.2.1.getD 0 0 = 100 ∧
    (startRead cexS3 0).2.2.1.getD 0 0 = 50 ∧
    ¬((startRead cexS1 0).2.2.1.getD 0 0 ≤ (startRead cexS3 0).2.2.1.getD 0 0) := by
  decide

/-- C3 (amended): whenever a read session's window touches no fresh block
boundary, its reconciled timestamp equals the previous session's reconciled
timestamp plus the previous session's consumed count (so it is not below the
previous one), for any writes and the closing `stopRead` in between. -/
theorem C3_no_boundary_continuity (q1 : DataQueue) (nMax1 nMax2 : Int) (ops : List QOp)
    (chan : Nat) (h1 : q1.readInProgress = false) (hchan : chan < q1.numChans)
    (hlen : chan < q1.lastReadTimestamps.length)
    (h2 : (applyOps (sessionQ q1 nMax1) ops).readInProgress = false)
    (hnb : noFreshBoundary (applyOps (sessionQ q1 nMax1) ops) nMax2 chan) :
    sessionTs (applyOps (sessionQ q1 nMax1) ops) nMax2 chan
      = sessionTs q1 nMax1 chan + ((sessionConsumed q1 nMax1 chan : Nat) : Int) ∧
    sessionTs q1 nMax1 chan ≤ sessionTs (applyOps (sessionQ q1 nMax1) ops) nMax2 chan := by
  obtain ⟨hA1, hB1, hC1, hD1, hE1, hF1, hG1, hH1, hI1, hJ1, hK1, hL1, hM1⟩ :=
    startRead_spec q1 nMax1 chan h1 hchan
  have hts1 : sessionTs q1 nMax1 chan = reconTs q1 nMax1 chan := by
    simp only [sessionTs]
    rw [List.getD_eq_getElem?_getD, hC1]
    rfl
  have hcons1 : sessionConsumed q1 nMax1 chan = consumedOf q1 nMax1 chan := by
    simp only [sessionConsumed]
    rw [List.getD_eq_getElem?_getD, hB1]
    rfl
  have hlrt : (sessionQ q1 nMax1).lastReadTimestamps[chan]? =
      some (reconTs q1 nMax1 chan + ((consumedOf q1 nMax1 chan : Nat) : Int)) := by
    show (startRead q1 nMax1).2.2.2.lastReadTimestamps[chan]? = _
    rw [hE1, getElem?_set']
    simp [hlen]
  have hpres := applyOps_pres (sessionQ q1 nMax1) ops
  have hnum2 : (applyOps (sessionQ q1 nMax1) ops).numChans = q1.numChans := by
    rw [hpres.2]
    exact hI1
  obtain ⟨hA2, hB2, hC2, _, _, _, _, _, _, _, _, _, _⟩ :=
    startRead_spec (applyOps (sessionQ q1 nMax1) ops) nMax2 chan h2 (by rw [hnum2]; exact hchan)
  have hts2 : sessionTs (applyOps (sessionQ q1 nMax1) ops) nMax2 chan =
      reconTs (applyOps (sessionQ q1 nMax1) ops) nMax2 chan := by
    simp only [sessionTs]
    rw [List.getD_eq_getElem?_getD, hC2]
    rfl
  have hrt2 : reconTs (applyOps (sessionQ q1 nMax1) ops) nMax2 chan =
      (applyOps (sessionQ q1 nMax1) ops).lastReadTimestamps.getD chan 0 := by
    simp only [noFreshBoundary, consumedOf] at hnb
    simp only [reconTs, if_neg hnb]
  have hlast2 : (applyOps (sessionQ q1 nMax1) ops).lastReadTimestamps.getD chan 0 =
      reconTs q1 nMax1 chan + ((consumedOf q1 nMax1 chan : Nat) : Int) := by
    rw [List.getD_eq_getElem?_getD, hpres.1, hlrt]
    rfl
  have hmain : sessionTs (applyOps (sessionQ q1 nMax1) ops) nMax2 chan
      = sessionTs q1 nMax1 chan + ((sessionConsumed q1 nMax1 chan : Nat) : Int) := by
    rw [hts2, hrt2, hlast2, hts1, hcons1]
  refine ⟨hmain, ?_⟩
  rw [hmain]
  exact le_add_of_nonneg_right (Int.natCast_nonneg _)

/-- Witness for the amended C3 at `q1w`: session 1 reads 2 samples from a
misaligned window (no boundary, reconciled 500), and after `stopRead` the
next (empty) session reconciles to 502 = 500 + 2. -/
theorem C3_no_boundary_continuity_witness :
    q1w.readInProgress = false ∧
    (applyOps (sessionQ q1w 0) [QOp.stop]).readInProgress = false ∧
    noFreshBoundary (applyOps (sessionQ q1w 0) [QOp.stop]) 0 0 ∧
    (sessionTs (applyOps (sessionQ q1w 0) [QOp.stop]) 0 0
        = sessionTs q1w 0 0 + ((sessionConsumed q1w 0 0 : Nat) : Int) ∧
     sessionTs q1w 0 0 ≤ sessionTs (applyOps (sessionQ q1w 0) [QOp.stop]) 0 0) :=
  ⟨by decide, by decide, by decide,
    C3_no_boundary_continuity q1w 0 0 [QOp.stop] 0 (by decide) (by decide) (by decide)
      (by decide) (by decide)⟩

theorem getD_set_self {α : Type} (l : List α) (i : Nat) (a d : α) (h : i < l.length) :
    (l.set i a).getD i d = a := by
  rw [List.getD_eq_getElem?_getD, List.getElem?_set_self h]
  rfl

theorem copyRow_length (dest : List Int) (destStart : Nat) (src : List Int)
    (srcStart num : Nat) : (copyRow dest destStart src srcStart num).length = dest.length := by
  simp [copyRow]

theorem copyRow_getD (dest : List Int) (destStart : Nat) (src : List Int)
    (srcStart num p : Nat) :
    (copyRow dest destStart src srcStart num).getD p 0 =
      if p < dest.length then
        (if destStart ≤ p ∧ p < destStart + num then src.getD (srcStart + (p - destStart)) 0
         else dest.getD p 0)
      else 0 := by
  rw [copyRow, List.getD_eq_getElem?_getD, List.getElem?_map]
  by_cases hp : p < dest.length
  · rw [List.getElem?_range hp]
    simp [hp]
  · have hnone : (List.range dest.length)[p]? = none := by
      rw [List.getElem?_eq_none_iff]
      simpa using Nat.le_of_not_lt hp
    rw [hnone]
    simp [hp]

theorem map_range_getD (l : List Int) :
    (List.range l.length).map (fun p => l.getD p 0) = l := by
  apply List.ext_getElem (by simp)
  intro i h1 h2
  simp only [List.getElem_map, List.getElem_range]
  exact List.getD_eq_getElem l 0 h2

theorem prepareToWrite_grant (f : AbstractFifo) (n : Nat) (hwf : FifoWF f) :
    (prepareToWrite f n).size1 + (prepareToWrite f n).size2 = min n (getFreeSpace f) ∧
    (prepareToWrite f n).index2 = 0 ∧
    (prepareToWrite f n).index1 + (prepareToWrite f n).size1 ≤ f.bufferSize ∧
    (prepareToWrite f n).size2 ≤ (prepareToWrite f n).index1 ∧
    (prepareToWrite f n).size2 ≤ f.validStart := by
  obtain ⟨h1, h2⟩ := hwf
  by_cases hvs : f.validStart ≤ f.validEnd
  · simp only [prepareToWrite, getFreeSpace, getNumReady, hvs, if_true]
    split
    · dsimp only
      omega
    · dsimp only
      split
      · omega
      · omega
  · simp only [prepareToWrite, getFreeSpace, getNumReady, hvs, if_false]
    split
    · dsimp only
      omega
    · dsimp only
      split
      · omega
      · omega

theorem prepareToWrite_disjoint (f : AbstractFifo) (n p : Nat) (hwf : FifoWF f)
    (hp : inReadyRegionB f p = true) :
    ¬((prepareToWrite f n).index1 ≤ p ∧
        p < (prepareToWrite f n).index1 + (prepareToWrite f n).size1) ∧
    ¬(p < (prepareToWrite f n).size2) := by
  obtain ⟨h1, h2⟩ := hwf
  by_cases hvs : f.validStart ≤ f.validEnd
  · rw [inReadyRegionB, if_pos hvs] at hp
    have hp' := of_decide_eq_true hp
    simp only [prepareToWrite, hvs, if_true]
    split
    · dsimp only
      omega
    · dsimp only
      split
      · omega
      · omega
  · rw [inReadyRegionB, if_neg hvs] at hp
    have hp' := of_decide_eq_true hp
    simp only [prepareToWrite, hvs, if_false]
    split
    · dsimp only
      omega
    · dsimp only
      split
      · omega
      · omega

theorem writeChannel_fifos (q : DataQueue) (src : List Int) (chan nS : Nat) (ts : Int) :
    (writeChannel q src chan nS ts).fifos =
      q.fifos.set chan (finishedWrite (q.fifos.getD chan default)
        ((prepareToWrite (q.fifos.getD chan default) nS).size1 +
          (prepareToWrite (q.fifos.getD chan default) nS).size2)) := by
  simp only [writeChannel, fillTimestamps]
  split <;> rfl

theorem writeChannel_row (q : DataQueue) (src : List Int) (chan nS : Nat) (ts : Int)
    (hblen : chan < q.buffer.length) :
    (writeChannel q src chan nS ts).buffer.getD chan [] =
      (if 0 < (prepareToWrite (q.fifos.getD chan default) nS).size2 then
        copyRow
          (copyRow (q.buffer.getD chan [])
            (prepareToWrite (q.fifos.getD chan default) nS).index1 src 0
            (prepareToWrite (q.fifos.getD chan default) nS).size1)
          (prepareToWrite (q.fifos.getD chan default) nS).index2 src
          (prepareToWrite (q.fifos.getD chan default) nS).size1
          (prepareToWrite (q.fifos.getD chan default) nS).size2
      else
        copyRow (q.buffer.getD chan [])
          (prepareToWrite (q.fifos.getD chan default) nS).index1 src 0
          (prepareToWrite (q.fifos.getD chan default) nS).size1) := by
  have hlen2 : chan < (q.buffer.set chan
      (copyRow (q.buffer.getD chan [])
        (prepareToWrite (q.fifos.getD chan default) nS).index1 src 0
        (prepareToWrite (q.fifos.getD chan default) nS).size1)).length := by
    simpa using hblen
  simp only [writeChannel, fillTimestamps, copyFrom]
  split
  · rw [getD_set_self _ _ _ _ hblen, getD_set_self _ _ _ _ hlen2]
  · rw [getD_set_self _ _ _ _ hblen]

theorem map_range_getD_lt (m p : Nat) (g : Nat → Int) (hp : p < m) :
    ((List.range m).map g).getD p 0 = g p := by
  rw [List.getD_eq_getElem?_getD, List.getElem?_map, List.getElem?_range hp]
  rfl

/-- C4: a `writeChannel` requesting more samples than the ring can currently
supply still completes: exactly the allocator-granted total `size1 + size2`
(the free space, which is under both the request and the ring capacity) is
copied into the sample store and committed to the write cursor; every stored
sample comes from the first `size1 + size2` source samples (the trailing
excess is dropped), and the unread (ready) region of the ring is untouched. -/
theorem C4_overflow_truncation (q : DataQueue) (src : List Int) (chan nSamples : Nat)
    (ts : Int) (f : AbstractFifo) (w : CircularBufferIndexes)
    (hf : f = q.fifos.getD chan default)
    (hw : w = prepareToWrite f nSamples)
    (hwf : FifoWF f) (hcap : f.bufferSize = q.maxSize)
    (hflen : chan < q.fifos.length) (hblen : chan < q.buffer.length)
    (hrow : (q.buffer.getD chan []).length = q.maxSize)
    (hover : getFreeSpace f < nSamples) :
    w.size1 + w.size2 = getFreeSpace f ∧
    w.size1 + w.size2 < nSamples ∧
    w.size1 + w.size2 ≤ q.maxSize ∧
    (writeChannel q src chan nSamples ts).fifos[chan]? =
      some (finishedWrite f (w.size1 + w.size2)) ∧
    (writeChannel q src chan nSamples ts).buffer.getD chan [] =
      (List.range q.maxSize).map (fun p =>
        if w.index1 ≤ p ∧ p < w.index1 + w.size1 then src.getD (p - w.index1) 0
        else if p < w.size2 then src.getD (w.size1 + p) 0
        else (q.buffer.getD chan []).getD p 0) ∧
    readySlice f ((writeChannel q src chan nSamples ts).buffer.getD chan []) =
      readySlice f (q.buffer.getD chan []) := by
  have hg := prepareToWrite_grant f nSamples hwf
  rw [← hw] at hg
  obtain ⟨hg1, hg2, hg3, hg4, hg5⟩ := hg
  have hfree : getFreeSpace f ≤ f.bufferSize := by
    simp only [getFreeSpace]
    omega
  have hsum : w.size1 + w.size2 = getFreeSpace f := by
    rw [hg1]
    omega
  have hfi := writeChannel_fifos q src chan nSamples ts
  rw [← hf, ← hw] at hfi
  have hrw := writeChannel_row q src chan nSamples ts hblen
  rw [← hf, ← hw] at hrw
  have hchar : (writeChannel q src chan nSamples ts).buffer.getD chan [] =
      (List.range q.maxSize).map (fun p =>
        if w.index1 ≤ p ∧ p < w.index1 + w.size1 then src.getD (p - w.index1) 0
        else if p < w.size2 then src.getD (w.size1 + p) 0
        else (q.buffer.getD chan []).getD p 0) := by
    rw [hrw]
    by_cases hpos : 0 < w.size2
    · rw [if_pos hpos]
      have hlen1 : (copyRow (q.buffer.getD chan []) w.index1 src 0 w.size1).length =
          q.maxSize := by rw [copyRow_length, hrow]
      have hfull : copyRow (copyRow (q.buffer.getD chan []) w.index1 src 0 w.size1)
          w.index2 src w.size1 w.size2 =
          (List.range q.maxSize).map (fun p =>
            (copyRow (copyRow (q.buffer.getD chan []) w.index1 src 0 w.size1)
              w.index2 src w.size1 w.size2).getD p 0) := by
        have := map_range_getD (copyRow (copyRow (q.buffer.getD chan []) w.index1 src 0 w.size1)
          w.index2 src w.size1 w.size2)
        rw [copyRow_length, hlen1] at this
        exact this.symm
      rw [hfull]
      apply List.map_eq_map_iff.mpr
      intro p hp
      have hpm : p < q.maxSize := List.mem_range.mp hp
      rw [copyRow_getD, if_pos (by rw [hlen1]; exact hpm)]
      by_cases hB : p < w.size2
      · rw [if_pos (show w.index2 ≤ p ∧ p < w.index2 + w.size2 by omega),
          if_neg (show ¬(w.index1 ≤ p ∧ p < w.index1 + w.size1) by omega), if_pos hB, hg2]
        simp
      · rw [if_neg (show ¬(w.index2 ≤ p ∧ p < w.index2 + w.size2) by omega), copyRow_getD,
          if_pos (show p < (q.buffer.getD chan []).length by omega)]
        by_cases hA : w.index1 ≤ p ∧ p < w.index1 + w.size1
        · rw [if_pos hA, if_pos hA]
          simp
        · rw [if_neg hA, if_neg hA, if_neg hB]
    · rw [if_neg hpos]
      have hs2 : w.size2 = 0 := by omega
      have hfull : copyRow (q.buffer.getD chan []) w.index1 src 0 w.size1 =
          (List.range q.maxSize).map (fun p =>
            (copyRow (q.buffer.getD chan []) w.index1 src 0 w.size1).getD p 0) := by
        have := map_range_getD (copyRow (q.buffer.getD chan []) w.index1 src 0 w.size1)
        rw [copyRow_length, hrow] at this
        exact this.symm
      rw [hfull]
      apply List.map_eq_map_iff.mpr
      intro p hp
      have hpm : p < q.maxSize := List.mem_range.mp hp
      rw [copyRow_getD, if_pos (show p < (q.buffer.getD chan []).length by omega)]
      by_cases hA : w.index1 ≤ p ∧ p < w.index1 + w.size1
      · rw [if_pos hA, if_pos hA]
        simp
      · rw [if_neg hA, if_neg hA, if_neg (show ¬ p < w.size2 by omega)]
  refine ⟨hsum, by omega, by rw [hsum, ← hcap]; exact hfree, ?_, hchar, ?_⟩
  · rw [hfi, getElem?_set']
    simp [hflen]
  · have hdis := fun p hp => prepareToWrite_disjoint f nSamples p hwf hp
    simp only [← hw] at hdis
    simp only [readySlice]
    apply List.map_eq_map_iff.mpr
    intro p hp
    obtain ⟨hpr, hpred⟩ := List.mem_filter.mp hp
    have hpm : p < q.maxSize := by
      rw [← hcap]
      exact List.mem_range.mp hpr
    obtain ⟨hd1, hd2⟩ := hdis p hpred
    rw [hchar, map_range_getD_lt _ _ _ hpm, if_neg hd1, if_neg hd2]

/-- Witness for C4 at the concrete queue `qA`: requesting 5 samples when only
1 slot of free space is left. -/
theorem C4_overflow_truncation_witness :
    fA = qA.fifos.getD 0 default ∧ FifoWF fA ∧ getFreeSpace fA < 5 ∧
    (wA.size1 + wA.size2 = getFreeSpace fA ∧
     wA.size1 + wA.size2 < 5 ∧
     wA.size1 + wA.size2 ≤ qA.maxSize ∧
     (writeChannel qA [21, 22, 23, 24, 25] 0 5 42).fifos[0]? =
       some (finishedWrite fA (wA.size1 + wA.size2)) ∧
     (writeChannel qA [21, 22, 23, 24, 25] 0 5 42).buffer.getD 0 [] =
       (List.range qA.maxSize).map (fun p =>
         if wA.index1 ≤ p ∧ p < wA.index1 + wA.size1 then
           ([21, 22, 23, 24, 25] : List Int).getD (p - wA.index1) 0
         else if p < wA.size2 then ([21, 22, 23, 24, 25] : List Int).getD (wA.size1 + p) 0
         else (qA.buffer.getD 0 []).getD p 0) ∧
     readySlice fA ((writeChannel qA [21, 22, 23, 24, 25] 0 5 42).buffer.getD 0 []) =
       readySlice fA (qA.buffer.getD 0 [])) :=
  ⟨by decide, by decide, by decide,
    C4_overflow_truncation qA [21, 22, 23, 24, 25] 0 5 42 fA wA (by decide) rfl (by decide)
      (by decide) (by decide) (by decide) (by decide) (by decide)⟩

theorem fillTimestamps_timestamps_congr (X Y : DataQueue) (c i s : Nat) (t : Int)
    (ht : X.timestamps = Y.timestamps) (hb : X.blockSize = Y.blockSize) :
    (fillTimestamps X c i s t).timestamps = (fillTimestamps Y c i s t).timestamps := by
  simp only [fillTimestamps, ht, hb]

theorem writeChannel_timestamps_nowrap (q : DataQueue) (src : List Int) (chan nS : Nat)
    (ts : Int) (hs2 : (prepareToWrite (q.fifos.getD chan default) nS).size2 = 0) :
    (writeChannel q src chan nS ts).timestamps =
      (fillTimestamps q chan (prepareToWrite (q.fifos.getD chan default) nS).index1
        (prepareToWrite (q.fifos.getD chan default) nS).size1 ts).timestamps := by
  simp only [writeChannel]
  rw [if_neg (by omega)]
  exact fillTimestamps_timestamps_congr _ _ _ _ _ _ rfl rfl

/-- C8: with `blockSize = 10` and any `numBlocks ≥ 2`, a `writeChannel` of 10
samples stamped 100 whose allocator window starts at ring offset 3 stores
`107 = 100 + (10 - 3)` in table slot `(10 / 10) % numBlocks` (the block
starting at ring position 10). -/
theorem C8_misaligned_stamp (nb : Nat) (hnb : 2 ≤ nb) (src : List Int) :
    (prepareToWrite ((q8 nb).fifos.getD 0 default) 10).index1 = 3 ∧
    ((writeChannel (q8 nb) src 0 10 100).timestamps.getD 0 []).getD (10 / 10 % nb) 0 = 107 := by
  have hge : 20 ≤ 10 * nb := by omega
  have hfifo : (q8 nb).fifos.getD 0 default = (⟨10 * nb, 3, 3⟩ : AbstractFifo) := rfl
  have hw : prepareToWrite (⟨10 * nb, 3, 3⟩ : AbstractFifo) 10 = ⟨3, 10, 0, 0⟩ := by
    simp only [prepareToWrite]
    simp only [show (((⟨10 * nb, 3, 3⟩ : AbstractFifo).validStart ≤
        (⟨10 * nb, 3, 3⟩ : AbstractFifo).validEnd)) = True from by simp, if_true]
    simp only [show (⟨10 * nb, 3, 3⟩ : AbstractFifo).validEnd = 3 from rfl,
      show (⟨10 * nb, 3, 3⟩ : AbstractFifo).validStart = 3 from rfl,
      show (⟨10 * nb, 3, 3⟩ : AbstractFifo).bufferSize = 10 * nb from rfl,
      Nat.sub_self, Nat.sub_zero]
    rw [show min 10 (10 * nb - 1) = 10 by omega]
    rw [if_neg (by norm_num)]
    rw [show min (10 * nb - 3) 10 = 10 by omega]
    simp
  have hts : (writeChannel (q8 nb) src 0 10 100).timestamps =
      (fillTimestamps (q8 nb) 0 3 10 100).timestamps := by
    have := writeChannel_timestamps_nowrap (q8 nb) src 0 10 100 (by rw [hfifo, hw])
    rw [hfifo, hw] at this
    exact this
  have hfill : (fillTimestamps (q8 nb) 0 3 10 100).timestamps =
      [(List.replicate nb (0 : Int)).set 1 107] := by
    simp only [fillTimestamps]
    norm_num [show (q8 nb).blockSize = 10 from rfl,
      show (q8 nb).timestamps = [List.replicate nb (0 : Int)] from rfl,
      List.range_succ, List.range_zero, List.foldl_append, List.foldl_cons, List.foldl_nil]
  rw [hts, hfill]
  have hslot : 10 / 10 % nb = 1 := by
    rw [Nat.div_self (by omega)]
    exact Nat.mod_eq_of_lt (by omega)
  rw [hslot]
  refine ⟨by rw [hfifo, hw], ?_⟩
  have h1 : (1 : Nat) < (List.replicate nb (0 : Int)).length := by
    rw [List.length_replicate]
    omega
  show ((List.replicate nb (0 : Int)).set 1 107).getD 1 0 = 107
  exact getD_set_self _ _ _ _ h1

/-- Witness for C8 at `numBlocks = 2`. -/
theorem C8_misaligned_stamp_witness :
    2 ≤ 2 ∧
    ((prepareToWrite ((q8 2).fifos.getD 0 default) 10).index1 = 3 ∧
     ((writeChannel (q8 2) [] 0 10 100).timestamps.getD 0 []).getD (10 / 10 % 2) 0 = 107) :=
  ⟨by decide, C8_misaligned_stamp 2 (by decide) []⟩

/-- C1 (evaluation at the failing input): claim C1 predicts that writing 4
samples stamped 100 into an empty channel with `blockSize = 2` stores 100 in
table slot 0 and `100 + 1 * 2 = 102` in table slot 1.  The code's
`fillTimestamps` loop never advances `blockIdx` and adds `i * m_blockSize`
(with `i` already in samples), so the table ends as `[104, 0, 0, 0]`: slot 1
keeps its stale value and slot 0 holds 104. -/
theorem C1_fillTimestamps_slot_bug :
    ((writeChannel q1c (List.replicate 4 (5 : Int)) 0 4 100).timestamps.getD 0 []) =
      [104, 0, 0, 0] ∧
    ((writeChannel q1c (List.replicate 4 (5 : Int)) 0 4 100).timestamps.getD 0 []).getD 1 0 ≠
      100 + 1 * 2 := by
  decide
